import Mathlib

/-!
Verification development for the GOGAR scorekeeping engine
(gogar.py / gogar_enh.py).  Statements are modelled as an opaque type
with decidable equality; Python sets become finite sets, and the
mutable-object methods become pure functions of the state they read.
-/

namespace Gogar

universe u

/-- An inference rule: a finite set of premise statements and one
conclusion statement (class Inference). -/
structure Inference (α : Type u) where
  premises : Finset α
  conclusion : α
deriving DecidableEq

/-- A challenge issued against an agent: the target is identified by
name (Agent equality in the source compares names), together with the
challenged sentence (class Challenge). -/
structure Challenge (α : Type u) where
  target : String
  sentence : α
deriving DecidableEq

/-- An agent: a name, an intelligence bound, avowed commitments, a list
of incompatibility sets, committive and permissive inference sets, and
the set of challenges the agent has issued (class Agent). -/
structure Agent (α : Type u) where
  name : String
  intelligence : Nat
  commitments_avowed : Finset α
  incompatibilities : List (Finset α)
  committive_inferences : Finset (Inference α)
  permissive_inferences : Finset (Inference α)
  challenges_issued : Finset (Challenge α)
deriving DecidableEq

/-- The game state: the registry of agents together with the transcript
ring buffer (class Game).  The scoring engine reads only `agents`. -/
structure Game (α : Type u) where
  agents : List (Agent α)
  transcript : List (String × String)
deriving DecidableEq

variable {α : Type u} [DecidableEq α]

/-- Game.assertions_challenged: the set of sentences of challenges,
issued by any agent in the game, whose target is the given agent. -/
def assertions_challenged (g : Game α) (agent : Agent α) : Finset α :=
  g.agents.foldr
    (fun a acc =>
      acc ∪ (a.challenges_issued.filter
              (fun c => c.target = agent.name)).image (fun c => c.sentence))
    ∅

/-- Game.assertions_unchallenged: the avowed commitments of the agent
minus its challenged assertions. -/
def assertions_unchallenged (g : Game α) (agent : Agent α) : Finset α :=
  agent.commitments_avowed \ assertions_challenged g agent

/-- Game.all_unchallenged_assertions: union over all agents of their
unchallenged assertions. -/
def all_unchallenged_assertions (g : Game α) : Finset α :=
  g.agents.foldr (fun agent acc => acc ∪ assertions_unchallenged g agent) ∅

/-- Game.consequences_once: the basis together with the conclusion of
every inference whose premise set is contained in the basis. -/
def consequences_once (inferences : Finset (Inference α)) (basis : Finset α) :
    Finset α :=
  basis ∪ (inferences.filter (fun i => i.premises ⊆ basis)).image
            (fun i => i.conclusion)

/-- Game.compatible_with: false when some incompatibility set is
contained in the commitments extended with the sentence but not in the
commitments alone. -/
def compatible_with (incompatibilities : List (Finset α))
    (commitments : Finset α) (sentence : α) : Bool :=
  ! incompatibilities.any
      (fun inc => decide (inc ⊆ commitments ∪ {sentence}) &&
                  ! decide (inc ⊆ commitments))

/-- Game.remove_incompatibles: keep the sentences compatible with the
commitments. -/
def remove_incompatibles (sentences : Finset α) (commitments : Finset α)
    (incompatibilities : List (Finset α)) : Finset α :=
  sentences.filter (fun s => compatible_with incompatibilities commitments s = true)

/-- Game.consequences_once_and_prune: one expansion step followed by
incompatibility pruning. -/
def consequences_once_and_prune (inferences : Finset (Inference α))
    (base : Finset α) (commitments : Finset α)
    (incompatibilities : List (Finset α)) : Finset α :=
  remove_incompatibles (consequences_once inferences base) commitments
    incompatibilities

/-- Game.fixed_point: apply `func` until the set stops changing or
`times` iterations have been consumed. -/
def fixed_point (s : Finset α) (times : Nat) (func : Finset α → Finset α) :
    Finset α :=
  match times with
  | 0 => s
  | Nat.succ t =>
    let nxt := func s
    if s = nxt then s else fixed_point nxt t func

/-- Game.commitments: the bounded fixed point of one-step consequence
expansion with the scorekeeper committive inferences, starting from the
avowed commitments of the other agent, bounded by the scorekeeper
intelligence. -/
def commitments (scorekeeper other : Agent α) : Finset α :=
  fixed_point other.commitments_avowed scorekeeper.intelligence
    (fun s => consequences_once scorekeeper.committive_inferences s)

/-- Game.incompatibles: the incompatibility sets of the scorekeeper that
are contained in the attributed commitments. -/
def incompatibles (scorekeeper other : Agent α) : Finset (Finset α) :=
  let coms := commitments scorekeeper other
  (scorekeeper.incompatibilities.filter (fun inc => inc ⊆ coms)).toFinset

/-- Game.expand_entitlements: committive inferences applied to the
entitlements and permissive inferences applied to the intersection of
entitlements and commitments, each pruned, then united.  The `times`
parameter is accepted but unused, as in the source. -/
def expand_entitlements (coms ents : Finset α) (incs : List (Finset α))
    (cominfs perminfs : Finset (Inference α)) (times : Nat) : Finset α :=
  let _ := times
  let ents2 := consequences_once_and_prune cominfs ents coms incs
  let ents3 := consequences_once_and_prune perminfs (ents ∩ coms) coms incs
  ents2 ∪ ents3

/-- Game.entitlements generalised over the iteration bound passed to
fixed_point; the source fixes the bound to `other.intelligence`. -/
def entitlements_bounded (g : Game α) (scorekeeper other : Agent α)
    (times : Nat) : Finset α :=
  let coms := commitments scorekeeper other
  let incs := scorekeeper.incompatibilities
  let base := remove_incompatibles (all_unchallenged_assertions g) coms incs
  fixed_point base times
    (fun s => expand_entitlements coms s incs scorekeeper.committive_inferences
                scorekeeper.permissive_inferences times)

/-- Game.entitlements: the bounded fixed point of expand_entitlements
starting from the pruned unchallenged assertions, with
`times = other.intelligence` as in the source. -/
def entitlements (g : Game α) (scorekeeper other : Agent α) : Finset α :=
  entitlements_bounded g scorekeeper other other.intelligence

/-- Game.score, parameterised by the collaborator that renders a set of
statements as text (in gogar.py this is the interpolation of the raw
Python set, in gogar_enh.py it is format_set). -/
def score (g : Game α) (render : Finset α → String)
    (renderIncs : Finset (Finset α) → String) (scorekeeper other : Agent α) :
    String :=
  let coms := commitments scorekeeper other
  let ents := entitlements g scorekeeper other
  let incs := incompatibles scorekeeper other
  "\nCommitments:  " ++ render coms ++ "\nEntitlements: " ++ render ents ++
    "\nIncompatibles: " ++ renderIncs incs ++ "\n\n"

/-- Game.score_all: scores for the full cross product of agents sorted
by name. -/
def score_all (g : Game α) (render : Finset α → String)
    (renderIncs : Finset (Finset α) → String) : String :=
  let agents := g.agents.mergeSort (fun a b => decide (a.name ≤ b.name))
  agents.foldl
    (fun out sk =>
      agents.foldl
        (fun out2 ot =>
          out2 ++ sk.name ++ "\x27s score on " ++ ot.name ++ ":" ++
            score g render renderIncs sk ot)
        out)
    ""

/-!  State-passing forms of the scoring operations.  The Python methods
are executed against the mutable Game object; the returned Game is the
state after the call.  The method bodies contain reads only, so the
translation threads the state through each sub-call unchanged. -/

/-- State-passing Game.commitments. -/
def commitments_exec (g : Game α) (scorekeeper other : Agent α) :
    Finset α × Game α :=
  (commitments scorekeeper other, g)

/-- State-passing Game.entitlements. -/
def entitlements_exec (g : Game α) (scorekeeper other : Agent α) :
    Finset α × Game α :=
  (entitlements g scorekeeper other, g)

/-- State-passing Game.incompatibles. -/
def incompatibles_exec (g : Game α) (scorekeeper other : Agent α) :
    Finset (Finset α) × Game α :=
  (incompatibles scorekeeper other, g)

/-- State-passing Game.score: evaluates commitments, entitlements and
incompatibles in source order, threading the game state. -/
def score_exec (g : Game α) (render : Finset α → String)
    (renderIncs : Finset (Finset α) → String) (scorekeeper other : Agent α) :
    String × Game α :=
  let p1 := commitments_exec g scorekeeper other
  let p2 := entitlements_exec p1.2 scorekeeper other
  let p3 := incompatibles_exec p2.2 scorekeeper other
  ("\nCommitments:  " ++ render p1.1 ++ "\nEntitlements: " ++ render p2.1 ++
     "\nIncompatibles: " ++ renderIncs p3.1 ++ "\n\n", p3.2)

/-- State-passing Game.score_all: folds score over the sorted cross
product of agents, threading the game state. -/
def score_all_exec (g : Game α) (render : Finset α → String)
    (renderIncs : Finset (Finset α) → String) : String × Game α :=
  let agents := g.agents.mergeSort (fun a b => decide (a.name ≤ b.name))
  agents.foldl
    (fun acc sk =>
      agents.foldl
        (fun acc2 ot =>
          let p := score_exec acc2.2 render renderIncs sk ot
          (acc2.1 ++ sk.name ++ "\x27s score on " ++ ot.name ++ ":" ++ p.1,
           p.2))
        acc)
    ("", g)

/-!  Agent mutators relevant to the removal claims.  In the source,
Agent.withdraws_challenge uses set.discard; inference removal is
set.discard inline in Game.process_command; incompatibility removal is a
guarded list.remove inline in Game.process_command. -/

/-- Agent.withdraws_challenge: discard the challenge against the named
target for the sentence. -/
def withdraws_challenge (a : Agent α) (targetName : String) (sentence : α) :
    Agent α :=
  { a with challenges_issued := a.challenges_issued.erase ⟨targetName, sentence⟩ }

/-- Removal of a committive inference (process_command, discard). -/
def removes_committive_inference (a : Agent α) (i : Inference α) : Agent α :=
  { a with committive_inferences := a.committive_inferences.erase i }

/-- Removal of a permissive inference (process_command, discard). -/
def removes_permissive_inference (a : Agent α) (i : Inference α) : Agent α :=
  { a with permissive_inferences := a.permissive_inferences.erase i }

/-- Removal of an incompatibility set (process_command: list.remove of
the first occurrence, guarded by a membership test). -/
def removes_incompatibility (a : Agent α) (inc : Finset α) : Agent α :=
  { a with incompatibilities :=
      if inc ∈ a.incompatibilities then a.incompatibilities.erase inc
      else a.incompatibilities }

/-!  Rendering collaborators.  gogar_enh.format_set receives the set in
whatever iteration order Python happens to produce and sorts it;
gogar.py interpolates the raw set text, whose element order is the
iteration order.  Both are modelled on the enumeration (a list). -/

/-- format_set from gogar_enh.py: empty string for the empty set,
otherwise a newline followed by the two-space-indented elements in
sorted order, newline-joined. -/
def format_set (l : List String) : String :=
  if l = [] then ""
  else
    "\n" ++ String.intercalate "\n" (l.mergeSort.map (fun e => "  " ++ e))

/-- The text of a Python set of strings as interpolated by an f-string
in gogar.py score, given the iteration order of the set. -/
def pySetRepr (l : List String) : String :=
  if l = [] then "set()"
  else
    "\x7b" ++
      String.intercalate ", " (l.map (fun s => "\x27" ++ s ++ "\x27")) ++
      "\x7d"

/-- The score text of gogar.py given the iteration orders in which the
commitment and entitlement sets are interpolated. -/
def score_text_py (comsOrd entsOrd : List String) (incsRepr : String) :
    String :=
  "\nCommitments:  " ++ pySetRepr comsOrd ++ "\nEntitlements: " ++
    pySetRepr entsOrd ++ "\nIncompatibles: " ++ incsRepr ++ "\n\n"

/-!  Concrete instances used as witnesses. -/

/-- The committive inference from "A is red" to "A is colored". -/
def infRedColored : Inference String :=
  ⟨{"A is red"}, "A is colored"⟩

/-- Ann: accepts the red-to-colored committive inference, avows
nothing. -/
def ann : Agent String :=
  ⟨"Ann", 100, ∅, [], {infRedColored}, ∅, ∅⟩

/-- Bob: avows "A is red", accepts no inferences. -/
def bob : Agent String :=
  ⟨"Bob", 100, {"A is red"}, [], ∅, ∅, ∅⟩

/-- The game with agents Ann and Bob. -/
def gameAnnBob : Game String :=
  ⟨[ann, bob], []⟩

/-- A scorekeeper of intelligence 0 holding the committive inference
from p to q. -/
def skLow : Agent String :=
  ⟨"S", 0, ∅, [], {⟨{"p"}, "q"⟩}, ∅, ∅⟩

/-- An evaluated agent of intelligence 1 avowing p. -/
def otHigh : Agent String :=
  ⟨"O", 1, {"p"}, [], ∅, ∅, ∅⟩

/-- The game with agents skLow and otHigh. -/
def gameSO : Game String :=
  ⟨[skLow, otHigh], []⟩

/-- Agent X, who avows "A is red". -/
def agentX : Agent String :=
  ⟨"X", 100, {"A is red"}, [], ∅, ∅, ∅⟩

/-- Agent Y, who challenges the entitlement of X to "A is red". -/
def agentY : Agent String :=
  ⟨"Y", 100, ∅, [], ∅, ∅, {⟨"X", "A is red"⟩}⟩

/-- The game with agents X and Y. -/
def gameXY : Game String :=
  ⟨[agentX, agentY], []⟩

/-- The game with agents X and Y and a nonempty transcript: the same
agent state as gameXY with different collaborator state. -/
def gameXY2 : Game String :=
  ⟨[agentX, agentY], [("score", "done")]⟩

/-- A trivial set renderer used to instantiate the render
collaborator. -/
def renderU : Finset String → String := fun _ => ""

/-- A trivial incompatibility-set renderer used to instantiate the
render collaborator. -/
def renderIncsU : Finset (Finset String) → String := fun _ => ""

example : commitments ann bob = {"A is red", "A is colored"} := by decide
example : commitments bob bob = {"A is red"} := by decide
example : entitlements gameSO skLow otHigh = {"p", "q"} := by decide
example : entitlements_bounded gameSO skLow otHigh skLow.intelligence = {"p"} := by
  decide
example : "A is red" ∉ all_unchallenged_assertions gameXY := by decide

/-!  Helper lemmas shared by the claim theorems. -/

/-- Membership in a foldr of unions over a list. -/
theorem mem_foldr_union {β : Type u} (f : β → Finset α) (l : List β) (x : α) :
    x ∈ l.foldr (fun a acc => acc ∪ f a) ∅ ↔ ∃ a ∈ l, x ∈ f a := by
  induction l with
  | nil => simp
  | cons b rest ih => simp [ih, or_comm]

/-- Membership in the challenged assertions of an agent. -/
theorem mem_assertions_challenged (g : Game α) (ag : Agent α) (x : α) :
    x ∈ assertions_challenged g ag ↔
      ∃ a ∈ g.agents, ∃ c ∈ a.challenges_issued,
        c.target = ag.name ∧ c.sentence = x := by
  unfold assertions_challenged
  rw [mem_foldr_union (fun a =>
    (a.challenges_issued.filter (fun c => c.target = ag.name)).image
      (fun c => c.sentence)) g.agents x]
  constructor
  · rintro ⟨a, ha, hx⟩
    rcases Finset.mem_image.mp hx with ⟨c, hc, rfl⟩
    rcases Finset.mem_filter.mp hc with ⟨hc1, hc2⟩
    exact ⟨a, ha, c, hc1, hc2, rfl⟩
  · rintro ⟨a, ha, c, hc, htgt, hsen⟩
    refine ⟨a, ha, Finset.mem_image.mpr ⟨c, Finset.mem_filter.mpr ⟨hc, htgt⟩, hsen⟩⟩

/-- Dropping an inference whose premises are not contained in the basis
does not change the one-step consequences. -/
theorem consequences_once_erase (infs : Finset (Inference α))
    (i : Inference α) (b : Finset α) (h : ¬ i.premises ⊆ b) :
    consequences_once (infs.erase i) b = consequences_once infs b := by
  unfold consequences_once
  have hfilter : (infs.erase i).filter (fun j => j.premises ⊆ b) =
      infs.filter (fun j => j.premises ⊆ b) := by
    rw [Finset.filter_erase, Finset.erase_eq_of_not_mem]
    simp [Finset.mem_filter, h]
  rw [hfilter]

/-- Claim C1: fixed_point always returns a value obtained by at most
`times` applications of the step function (a k-fold iterate with
k ≤ times, and either a true fixed point was reached or the budget was
exhausted), and it returns the current set as soon as the step function
leaves it unchanged. -/
theorem fixed_point_bounded (s : Finset α) (times : Nat)
    (f : Finset α → Finset α) :
    (∃ k ≤ times, fixed_point s times f = f^[k] s ∧
       (f (f^[k] s) = f^[k] s ∨ k = times)) ∧
    (f s = s → fixed_point s times f = s) := by
  induction times generalizing s with
  | zero =>
    exact ⟨⟨0, Nat.le_refl 0, rfl, Or.inr rfl⟩, fun _ => rfl⟩
  | succ t ih =>
    constructor
    · by_cases hs : s = f s
      · refine ⟨0, Nat.zero_le _, ?_, Or.inl ?_⟩
        · simp only [fixed_point, Function.iterate_zero_apply]
          rw [if_pos hs]
        · simp only [Function.iterate_zero_apply]
          exact hs.symm
      · obtain ⟨k, hk, heq, hfix⟩ := (ih (f s)).1
        refine ⟨k + 1, Nat.succ_le_succ hk, ?_, ?_⟩
        · rw [Function.iterate_succ_apply]
          simpa [fixed_point, hs] using heq
        · rcases hfix with h1 | h2
          · exact Or.inl (by rw [Function.iterate_succ_apply]; exact h1)
          · exact Or.inr (by rw [h2])
    · intro hfs
      simp only [fixed_point]
      rw [if_pos hfs.symm]

/-- Witness for C1: a step function with a fixed point at the start
makes fixed_point return immediately. -/
theorem fixed_point_bounded_witness :
    fixed_point ({"a"} : Finset String) 3 (fun s => s ∪ {"a"}) = {"a"} :=
  (fixed_point_bounded {"a"} 3 (fun s => s ∪ {"a"})).2 (by decide)

/-- Claim C2: one entitlement-expansion step is the union of the pruned
committive consequences of the full entitlement set and the pruned
permissive consequences of the intersection of entitlements and
commitments; a permissive inference whose premises are all entitled but
not all committed contributes nothing (removing it changes nothing). -/
theorem expand_entitlements_spec (coms ents : Finset α)
    (incs : List (Finset α)) (cominfs perminfs : Finset (Inference α))
    (times : Nat) :
    expand_entitlements coms ents incs cominfs perminfs times =
      consequences_once_and_prune cominfs ents coms incs ∪
        consequences_once_and_prune perminfs (ents ∩ coms) coms incs ∧
    ∀ i : Inference α, i.premises ⊆ ents → ¬ i.premises ⊆ coms →
      expand_entitlements coms ents incs cominfs perminfs times =
        expand_entitlements coms ents incs cominfs (perminfs.erase i) times := by
  refine ⟨rfl, fun i _ hncoms => ?_⟩
  have hnot : ¬ i.premises ⊆ ents ∩ coms := fun hsub =>
    hncoms ((Finset.subset_inter_iff.mp hsub).2)
  unfold expand_entitlements consequences_once_and_prune
  rw [consequences_once_erase perminfs i (ents ∩ coms) hnot]

/-- Witness for C2: a permissive inference with entitled but
uncommitted premises can be removed without changing the step. -/
theorem expand_entitlements_spec_witness :
    expand_entitlements ({"c"} : Finset String) {"p"} [] ∅
        {(⟨{"p"}, "x"⟩ : Inference String)} 0 =
      expand_entitlements {"c"} {"p"} [] ∅
        (Finset.erase {(⟨{"p"}, "x"⟩ : Inference String)} ⟨{"p"}, "x"⟩) 0 :=
  (expand_entitlements_spec _ _ _ _ _ _).2 ⟨{"p"}, "x"⟩ (by decide) (by decide)

/-- Claim C3: commitments is the bounded fixed point of one-step
consequence expansion with the scorekeeper committive inferences,
starting from the avowed commitments of the other agent, bounded by the
scorekeeper intelligence; with Ann holding the red-to-colored committive
inference and Bob merely asserting "A is red", Ann attributes
"A is colored" to Bob while Bob does not attribute it to himself. -/
theorem commitments_spec :
    (∀ sk ot : Agent α,
       commitments sk ot =
         fixed_point ot.commitments_avowed sk.intelligence
           (fun s => consequences_once sk.committive_inferences s)) ∧
    "A is colored" ∈ commitments ann bob ∧
    "A is colored" ∉ commitments bob bob :=
  ⟨fun _ _ => rfl, by decide, by decide⟩

/-- Witness for C3: Ann attributes "A is colored" to Bob. -/
theorem commitments_spec_witness :
    "A is colored" ∈ commitments ann bob :=
  (@commitments_spec String _).2.1

/-- Counterexample to C4: in the entitlements computation the bound
passed to fixed_point is other.intelligence, not
scorekeeper.intelligence; with a scorekeeper of intelligence 0 and an
evaluated agent of intelligence 1 the two bounds give different
entitlement sets. -/
theorem entitlements_bound_counterexample :
    skLow.intelligence = 0 ∧ otHigh.intelligence = 1 ∧
    entitlements gameSO skLow otHigh ≠
      entitlements_bounded gameSO skLow otHigh skLow.intelligence :=
  ⟨rfl, rfl, by decide⟩

/-- Claim C4 (amended): the commitments computation passes the
scorekeeper intelligence to fixed_point, while the entitlements
computation passes the intelligence of the evaluated agent (other). -/
theorem fixed_point_bounds (g : Game α) (sk ot : Agent α) :
    commitments sk ot =
      fixed_point ot.commitments_avowed sk.intelligence
        (fun s => consequences_once sk.committive_inferences s) ∧
    entitlements g sk ot =
      fixed_point
        (remove_incompatibles (all_unchallenged_assertions g)
          (commitments sk ot) sk.incompatibilities)
        ot.intelligence
        (fun s => expand_entitlements (commitments sk ot) s
          sk.incompatibilities sk.committive_inferences
          sk.permissive_inferences ot.intelligence) :=
  ⟨rfl, rfl⟩

/-- Witness for C4 (amended): the bounds of the concrete skLow/otHigh
game. -/
theorem fixed_point_bounds_witness :
    commitments skLow otHigh =
      fixed_point otHigh.commitments_avowed skLow.intelligence
        (fun s => consequences_once skLow.committive_inferences s) :=
  (fixed_point_bounds gameSO skLow otHigh).1

/-- Claim C5: compatible_with returns false exactly when some declared
incompatibility set is contained in the commitments extended with the
sentence but not in the commitments alone; concretely, with
incompatibility set containing A and B and commitments containing A,
sentence B is rejected and sentence C is accepted. -/
theorem compatible_with_spec :
    (∀ (incs : List (Finset α)) (coms : Finset α) (s : α),
       compatible_with incs coms s = false ↔
         ∃ inc ∈ incs, inc ⊆ coms ∪ {s} ∧ ¬ inc ⊆ coms) ∧
    compatible_with [({"A", "B"} : Finset String)] {"A"} "B" = false ∧
    compatible_with [({"A", "B"} : Finset String)] {"A"} "C" = true := by
  refine ⟨fun incs coms s => ?_, by decide, by decide⟩
  simp [compatible_with, List.any_eq_true]

/-- Witness for C5: the sentence B completing the incompatibility is
rejected. -/
theorem compatible_with_spec_witness :
    compatible_with [({"A", "B"} : Finset String)] {"A"} "B" = false :=
  (@compatible_with_spec String _).2.1

/-- Membership in the one-step consequences. -/
theorem mem_consequences_once (infs : Finset (Inference α)) (b : Finset α)
    (x : α) :
    x ∈ consequences_once infs b ↔
      x ∈ b ∨ ∃ i ∈ infs, i.premises ⊆ b ∧ i.conclusion = x := by
  simp [consequences_once, Finset.mem_union, Finset.mem_image,
    Finset.mem_filter, and_assoc]

/-- Claim C6: the one-step consequences are the base together with the
conclusions of the inferences whose premises are contained in the base;
the result contains the base, and a larger base gives a larger
result. -/
theorem consequences_once_spec (infs : Finset (Inference α))
    (b b2 : Finset α) :
    (∀ x, x ∈ consequences_once infs b ↔
       x ∈ b ∨ ∃ i ∈ infs, i.premises ⊆ b ∧ i.conclusion = x) ∧
    b ⊆ consequences_once infs b ∧
    (b ⊆ b2 → consequences_once infs b ⊆ consequences_once infs b2) := by
  refine ⟨mem_consequences_once infs b, ?_, fun hsub x hx => ?_⟩
  · intro x hx
    exact (mem_consequences_once infs b x).mpr (Or.inl hx)
  · rcases (mem_consequences_once infs b x).mp hx with h | ⟨i, hi, hprem, hconc⟩
    · exact (mem_consequences_once infs b2 x).mpr (Or.inl (hsub h))
    · exact (mem_consequences_once infs b2 x).mpr
        (Or.inr ⟨i, hi, hprem.trans hsub, hconc⟩)

/-- Witness for C6: monotonicity at a concrete pair of bases. -/
theorem consequences_once_spec_witness :
    consequences_once (∅ : Finset (Inference String)) {"a"} ⊆
      consequences_once ∅ {"a", "b"} :=
  (consequences_once_spec ∅ {"a"} {"a", "b"}).2.2 (by decide)

/-- Membership in the union of unchallenged assertions across all
agents. -/
theorem mem_all_unchallenged (g : Game α) (x : α) :
    x ∈ all_unchallenged_assertions g ↔
      ∃ ag ∈ g.agents, x ∈ ag.commitments_avowed ∧
        ¬ ∃ a ∈ g.agents, ∃ c ∈ a.challenges_issued,
          c.target = ag.name ∧ c.sentence = x := by
  unfold all_unchallenged_assertions
  rw [mem_foldr_union (assertions_unchallenged g) g.agents x]
  refine exists_congr fun ag => and_congr_right fun _ => ?_
  simp only [assertions_unchallenged, Finset.mem_sdiff,
    mem_assertions_challenged]

/-- Claim C7: a statement is among the unchallenged assertions exactly
when some agent avows it and no challenge issued by any agent targets
that (agent, sentence) pair; in the concrete game where X avows
"A is red" and Y challenges it, "A is red" is excluded. -/
theorem all_unchallenged_spec :
    ("A is red" ∉ all_unchallenged_assertions gameXY) ∧
    ∀ (g : Game α) (x : α),
      (x ∈ all_unchallenged_assertions g ↔
        ∃ ag ∈ g.agents, x ∈ ag.commitments_avowed ∧
          ¬ ∃ a ∈ g.agents, ∃ c ∈ a.challenges_issued,
            c.target = ag.name ∧ c.sentence = x) :=
  ⟨by decide, fun g x => mem_all_unchallenged g x⟩

/-- Witness for C7: the challenged assertion of X is excluded. -/
theorem all_unchallenged_spec_witness :
    "A is red" ∉ all_unchallenged_assertions gameXY :=
  (@all_unchallenged_spec String _).1

/-- score_exec returns the score of the pure function and the unchanged
game state. -/
theorem score_exec_eq (g : Game α) (render : Finset α → String)
    (renderIncs : Finset (Finset α) → String) (sk ot : Agent α) :
    score_exec g render renderIncs sk ot = (score g render renderIncs sk ot, g) :=
  rfl

/-- score_all_exec returns the scoreboard of the pure function and the
unchanged game state. -/
theorem score_all_exec_eq (g : Game α) (render : Finset α → String)
    (renderIncs : Finset (Finset α) → String) :
    score_all_exec g render renderIncs = (score_all g render renderIncs, g) := by
  unfold score_all_exec score_all
  have hinner : ∀ (sk : Agent α) (M : List (Agent α)) (s : String),
      M.foldl
        (fun acc2 ot =>
          let p := score_exec acc2.2 render renderIncs sk ot
          (acc2.1 ++ sk.name ++ "\x27s score on " ++ ot.name ++ ":" ++ p.1,
           p.2))
        (s, g) =
      (M.foldl
        (fun out2 ot =>
          out2 ++ sk.name ++ "\x27s score on " ++ ot.name ++ ":" ++
            score g render renderIncs sk ot)
        s, g) := by
    intro sk M
    induction M with
    | nil => intro s; rfl
    | cons ot rest ih =>
      intro s
      simp only [List.foldl]
      exact ih _
  have houter : ∀ (L : List (Agent α)) (s : String),
      L.foldl
        (fun acc sk =>
          (g.agents.mergeSort (fun a b => decide (a.name ≤ b.name))).foldl
            (fun acc2 ot =>
              let p := score_exec acc2.2 render renderIncs sk ot
              (acc2.1 ++ sk.name ++ "\x27s score on " ++ ot.name ++ ":" ++
                 p.1, p.2))
            acc)
        (s, g) =
      (L.foldl
        (fun out sk =>
          (g.agents.mergeSort (fun a b => decide (a.name ≤ b.name))).foldl
            (fun out2 ot =>
              out2 ++ sk.name ++ "\x27s score on " ++ ot.name ++ ":" ++
                score g render renderIncs sk ot)
            out)
        s, g) := by
    intro L
    induction L with
    | nil => intro s; rfl
    | cons sk rest ih =>
      intro s
      simp only [List.foldl]
      rw [hinner sk _ s]
      exact ih _
  exact houter _ ""

/-- The pure score depends on the game only through its agents. -/
theorem score_agents_congr (g g2 : Game α) (render : Finset α → String)
    (renderIncs : Finset (Finset α) → String) (sk ot : Agent α)
    (h : g.agents = g2.agents) :
    score g render renderIncs sk ot = score g2 render renderIncs sk ot := by
  cases g with
  | mk a t =>
    cases g2 with
    | mk a2 t2 =>
      simp only at h
      subst h
      rfl

/-- The pure scoreboard depends on the game only through its agents. -/
theorem score_all_agents_congr (g g2 : Game α) (render : Finset α → String)
    (renderIncs : Finset (Finset α) → String) (h : g.agents = g2.agents) :
    score_all g render renderIncs = score_all g2 render renderIncs := by
  cases g with
  | mk a t =>
    cases g2 with
    | mk a2 t2 =>
      simp only at h
      subst h
      rfl

/-- Claim C8: the scoring operations return the game state unchanged
(no agent field and no part of the agent registry is modified), and
their results depend only on the agent state read at call time (two
games with the same agents yield the same scores). -/
theorem engine_reads_only (g g2 : Game α) (render : Finset α → String)
    (renderIncs : Finset (Finset α) → String) (sk ot : Agent α)
    (h : g.agents = g2.agents) :
    (commitments_exec g sk ot).2 = g ∧
    (entitlements_exec g sk ot).2 = g ∧
    (incompatibles_exec g sk ot).2 = g ∧
    (score_exec g render renderIncs sk ot).2 = g ∧
    (score_all_exec g render renderIncs).2 = g ∧
    (score_exec g render renderIncs sk ot).1 =
      (score_exec g2 render renderIncs sk ot).1 ∧
    (score_all_exec g render renderIncs).1 =
      (score_all_exec g2 render renderIncs).1 := by
  refine ⟨rfl, rfl, rfl, rfl, ?_, ?_, ?_⟩
  · rw [score_all_exec_eq]
  · rw [score_exec_eq, score_exec_eq]
    exact score_agents_congr g g2 render renderIncs sk ot h
  · rw [score_all_exec_eq, score_all_exec_eq]
    exact score_all_agents_congr g g2 render renderIncs h

/-- Witness for C8: scoring the X/Y game leaves its state unchanged. -/
theorem engine_reads_only_witness :
    (score_all_exec gameXY renderU renderIncsU).2 = gameXY :=
  (engine_reads_only gameXY gameXY2 renderU renderIncsU agentX agentY
    rfl).2.2.2.2.1

/-- Counterexample to C9: in gogar.py the score text interpolates the
raw Python set, so two iteration orders of the same two-element
commitment set give different score texts. -/
theorem score_text_py_order_dependent :
    List.Perm ["A is blue", "A is red"] ["A is red", "A is blue"] ∧
    score_text_py ["A is blue", "A is red"] [] "set()" ≠
      score_text_py ["A is red", "A is blue"] [] "set()" :=
  ⟨by decide, by decide⟩

/-- Claim C9 (amended): the enhanced-variant formatter format_set sorts
the statements, so its output is invariant under the iteration order in
which a set of statements is enumerated. -/
theorem format_set_perm_invariant :
    ∀ l1 l2 : List String, l1.Perm l2 → format_set l1 = format_set l2 := by
  intro l1 l2 h
  unfold format_set
  have hsort : l1.mergeSort = l2.mergeSort :=
    List.eq_of_perm_of_sorted
      ((List.mergeSort_perm l1 _).trans (h.trans (List.mergeSort_perm l2 _).symm))
      (List.sorted_mergeSort' l1) (List.sorted_mergeSort' l2)
  have hiff : l1 = [] ↔ l2 = [] := by
    rw [← List.length_eq_zero, ← List.length_eq_zero, h.length_eq]
  by_cases h1 : l1 = []
  · rw [if_pos h1, if_pos (hiff.mp h1)]
  · rw [if_neg h1, if_neg (fun e => h1 (hiff.mpr e)), hsort]

/-- Witness for C9: format_set gives the same text for two orders of
the same set. -/
theorem format_set_perm_invariant_witness :
    format_set ["b", "a"] = format_set ["a", "b"] :=
  format_set_perm_invariant ["b", "a"] ["a", "b"] (by decide)

/-- Claim C10: withdrawing an absent challenge, removing an absent
committive or permissive inference, and removing an absent
incompatibility set all leave the agent unchanged (and raise no
error: the operations are total). -/
theorem removal_noop (a : Agent α) (t : String) (s : α) (i : Inference α)
    (inc : Finset α) :
    ((⟨t, s⟩ : Challenge α) ∉ a.challenges_issued →
       withdraws_challenge a t s = a) ∧
    (i ∉ a.committive_inferences → removes_committive_inference a i = a) ∧
    (i ∉ a.permissive_inferences → removes_permissive_inference a i = a) ∧
    (inc ∉ a.incompatibilities → removes_incompatibility a inc = a) := by
  refine ⟨fun h => ?_, fun h => ?_, fun h => ?_, fun h => ?_⟩
  · unfold withdraws_challenge
    rw [Finset.erase_eq_of_not_mem h]
  · unfold removes_committive_inference
    rw [Finset.erase_eq_of_not_mem h]
  · unfold removes_permissive_inference
    rw [Finset.erase_eq_of_not_mem h]
  · unfold removes_incompatibility
    rw [if_neg h]

/-- Witness for C10: withdrawing a challenge Ann never issued leaves
Ann unchanged. -/
theorem removal_noop_witness :
    withdraws_challenge ann "Z" "zzz" = ann :=
  (removal_noop ann "Z" "zzz" infRedColored ∅).1 (by decide)

end Gogar
